import Mathlib

/-!
Shallow embedding of `notion-docs/scripts/update.ts`.

The script imports `renderRichTexts`, `renderBlocks`, `stripCurlyQuotes`,
`formatGlossaryTermKey`, `validDefinitionToPublish` and the types
`Definition`, `FAQ`, `LinkableTerms` from the sibling modules `./format`
and `./notion`, which are not part of the source tree; those are modelled
from the specification (each such definition carries a
`Modelled from the spec:` doc comment).  Everything else is translated
from `update.ts` directly.

JavaScript semantics captured by the embedding:
* a `Record<string, T>` is an insertion-ordered association list of own
  properties (`jsSet` overwrites in place or appends);
* `for...in` enumerates own properties with array-index keys (canonical
  base-10 numerals below 2^32 - 1) first in ascending numeric order,
  then the remaining string keys in insertion order (`jsEnumOrder`);
* `Array.prototype.sort` is a stable sort whose result is ordered by the
  comparator (modelled by `List.insertionSort`, which is stable);
* `String.prototype.localeCompare` is the host locale collation; it is
  modelled as an explicit comparison parameter `cmp : String → String → Int`.
-/

/-- Modelled from the spec: the closed set of validity outcomes returned by
the classifier in `./format` (§4.3): `Valid` plus named invalid reasons. -/
inductive DefinitionValidity where
  | Valid
  | InvalidMissingDefinition
  | InvalidUnpublished
  deriving DecidableEq

/-- A rich-text span: text content, inline formatting flags, and an optional
reference to another record's pageId (spec §3, `./notion` types). -/
structure RichText where
  text : String
  bold : Bool := false
  italic : Bool := false
  code : Bool := false
  ref : Option String := none
  deriving DecidableEq

/-- A glossary definition record (spec §3, `./notion` types). -/
structure Definition where
  pageId : String
  term : List RichText
  definition : List RichText
  url : String
  deriving DecidableEq

/-- Modelled from the spec: a structured content block (§4.1: paragraphs and
list items, each carrying rich-text content). -/
inductive Block where
  | paragraph (content : List RichText)
  | bulletItem (content : List RichText)
  deriving DecidableEq

/-- An FAQ record (spec §3, `./notion` types).  The source field `section`
is a Lean keyword, hence the quoted name. -/
structure FAQ where
  «section» : String
  order : Int
  question : String
  answer : List RichText
  blocks : List Block
  deriving DecidableEq

/-- Modelled from the spec: the owning project context (§4.3).  The
project-specific business rules are opaque, so the classification outcome is
carried as a field of the context. -/
structure Project where
  classify : Definition → DefinitionValidity

/-- An entry of the LinkableTerms table (spec §3): displayed text, anchor
key, target page path, validity flag, source URL. -/
structure LinkedDefinition where
  text : String
  anchor : String
  page : String
  valid : DefinitionValidity
  notionURL : String
  deriving DecidableEq

/-- The LinkableTerms table: a string-keyed JavaScript object, i.e. an
insertion-ordered association list of own properties. -/
abbrev LinkableTerms := List (String × LinkedDefinition)

/-- JavaScript property read `obj[k]`: the value at the first (unique)
matching key, if any. -/
def jsGet : LinkableTerms → String → Option LinkedDefinition
  | [], _ => none
  | (k0, v0) :: rest, k => if k0 = k then some v0 else jsGet rest k

/-- JavaScript property write `obj[k] = v`: overwrite in place when the key
exists, otherwise append (own-property creation order). -/
def jsSet : LinkableTerms → String → LinkedDefinition → LinkableTerms
  | [], k, v => [(k, v)]
  | (k0, v0) :: rest, k, v =>
    if k0 = k then (k, v) :: rest else (k0, v0) :: jsSet rest k v

/-- Normalize one character: curly single quotes become a straight
apostrophe, curly double quotes a straight double quote. -/
def straightenQuote (c : Char) : Char :=
  if c = Char.ofNat 0x2018 ∨ c = Char.ofNat 0x2019 then Char.ofNat 0x27
  else if c = Char.ofNat 0x201C ∨ c = Char.ofNat 0x201D then Char.ofNat 0x22
  else c

/-- Modelled from the spec: `stripCurlyQuotes` from `./format` (§4.1),
normalizing curly quotes to straight quotes. -/
def stripCurlyQuotes (s : String) : String :=
  String.mk (s.data.map straightenQuote)

/-- Modelled from the spec: rendering of a single rich-text span (§4.1) —
strip curly quotes, apply inline formatting, and when the span references a
pageId present in the table with validity `Valid`, wrap the text in a link
to `page#anchor`; otherwise render plain text. -/
def renderRichText (span : RichText) (lt : LinkableTerms) : String :=
  let t := stripCurlyQuotes span.text
  let t := if span.code then "`" ++ t ++ "`" else t
  let t := if span.bold then "**" ++ t ++ "**" else t
  let t := if span.italic then "*" ++ t ++ "*" else t
  match span.ref with
  | none => t
  | some pid =>
    match jsGet lt pid with
    | some e =>
      if e.valid = DefinitionValidity.Valid then
        "[" ++ t ++ "](" ++ e.page ++ "#" ++ e.anchor ++ ")"
      else t
    | none => t

/-- Modelled from the spec: `renderRichTexts` from `./format` (§4.1) —
render each span and concatenate. -/
def renderRichTexts (spans : List RichText) (lt : LinkableTerms) : String :=
  String.join (spans.map (renderRichText · lt))

/-- Modelled from the spec: the block renderer from `./format` (§4.1) —
render each block's rich-text content with a block-appropriate marker. -/
def renderBlock (b : Block) (lt : LinkableTerms) : String :=
  match b with
  | Block.paragraph content => renderRichTexts content lt
  | Block.bulletItem content => "- " ++ renderRichTexts content lt

/-- Modelled from the spec: `renderBlocks` from `./format` (§4.1) — render
each block and join with block separators. -/
def renderBlocks (blocks : List Block) (lt : LinkableTerms) : String :=
  String.intercalate "\n\n" (blocks.map (renderBlock · lt))

/-- The JavaScript regex `\s` whitespace class. -/
def jsWhitespace (c : Char) : Bool :=
  c == Char.ofNat 9 || c == Char.ofNat 10 || c == Char.ofNat 11 ||
  c == Char.ofNat 12 || c == Char.ofNat 13 || c == ' ' ||
  c == Char.ofNat 0xA0 || c == Char.ofNat 0x1680 ||
  (decide (Char.ofNat 0x2000 ≤ c) && decide (c ≤ Char.ofNat 0x200A)) ||
  c == Char.ofNat 0x2028 || c == Char.ofNat 0x2029 ||
  c == Char.ofNat 0x202F || c == Char.ofNat 0x205F ||
  c == Char.ofNat 0x3000 || c == Char.ofNat 0xFEFF

/-- The character set the spec allows in anchor keys (§4.2): letters,
digits, whitespace, `$`, `-`, parentheses. -/
def anchorAllowed (c : Char) : Bool :=
  c.isAlpha || c.isDigit || jsWhitespace c ||
  c == '$' || c == '-' || c == '(' || c == ')'

/-- Collapse each maximal run of whitespace to a single hyphen; the flag
records whether the previous character was inside a whitespace run. -/
def collapseWhitespaceAux : Bool → List Char → List Char
  | _, [] => []
  | inRun, c :: cs =>
    if jsWhitespace c then
      if inRun then collapseWhitespaceAux true cs
      else Char.ofNat 0x2D :: collapseWhitespaceAux true cs
    else c :: collapseWhitespaceAux false cs

/-- Modelled from the spec: `formatGlossaryTermKey` from `./format` (§4.2) —
render the term rich text to plain text without links, remove characters
outside the allowed set, lowercase, collapse whitespace runs to single
hyphens.  The table argument is unused because links are not rendered. -/
def formatGlossaryTermKey (spans : List RichText) (_lt : LinkableTerms) : String :=
  let plain := String.join (spans.map (fun s => stripCurlyQuotes s.text))
  let kept := plain.data.filter anchorAllowed
  let lowered := kept.map Char.toLower
  String.mk (collapseWhitespaceAux false lowered)

/-- Modelled from the spec: `validDefinitionToPublish` from `./format`
(§4.3) applies the project-specific business rules and returns one of the
closed set of validity outcomes. -/
def validDefinitionToPublish (d : Definition) (p : Project) : DefinitionValidity :=
  p.classify d

/-- The rendered `term`/`definition`/`key` triple of `update.ts`. -/
structure RenderedDefinition where
  term : String
  definition : String
  key : String
  deriving DecidableEq

/-- The character class kept by the regex replace in `renderDefinition`:
`[^a-z0-9\s$-()-]` with the `i` flag removes everything outside ASCII
letters, digits, `\s` whitespace, the range `$-(` (which is `$ % & \x27 (`),
`)`, and the literal `-`. -/
def regexKept (c : Char) : Bool :=
  c.isAlpha || c.isDigit || jsWhitespace c ||
  (decide ('$' ≤ c) && decide (c ≤ '(')) || c == ')' || c == '-'

/-- `renderDefinition` from `update.ts`: render the term, delete the
characters the regex matches, and derive the anchor key. -/
def renderDefinition (d : Definition) (lt : LinkableTerms) : RenderedDefinition :=
  let term := renderRichTexts d.term lt
  let formattedTerm := String.mk (term.data.filter regexKept)
  let dashDelimitedTermKey := formatGlossaryTermKey d.term lt
  { term := formattedTerm
    definition := renderRichTexts d.definition lt
    key := dashDelimitedTermKey }

/-- The sort relation used by `formatDefinitions`:
`a.term.localeCompare(b.term) <= 0` for the host collation `cmp`. -/
def termOrder (cmp : String → String → Int) (a b : RenderedDefinition) : Prop :=
  cmp a.term b.term ≤ 0

instance (cmp : String → String → Int) : DecidableRel (termOrder cmp) :=
  fun _ _ => Int.decLe _ _

/-- The sorted list of rendered triples built inside `formatDefinitions`. -/
def glossaryEntryList (cmp : String → String → Int) (definitions : List Definition)
    (lt : LinkableTerms) : List RenderedDefinition :=
  List.insertionSort (termOrder cmp) (definitions.map (renderDefinition · lt))

/-- The markdown fragment emitted for one rendered definition. -/
def glossaryEntryString (item : RenderedDefinition) : String :=
  "### " ++ item.term ++ " \x7b#" ++ item.key ++ "\x7d\n" ++ item.definition ++ "\n\n"

/-- `formatDefinitions` from `update.ts`: render, sort by
`localeCompare` on the term, emit one heading block per definition, and
wrap everything in the container element. -/
def formatDefinitions (cmp : String → String → Int) (definitions : List Definition)
    (lt : LinkableTerms) : String :=
  let htmlArray := (glossaryEntryList cmp definitions lt).map glossaryEntryString
  "<div class=\"hidden-glossary\">\n\n" ++ String.join htmlArray ++ "\n</div>\n"

/-- One step of the grouping loop of `organizeFAQ`: append the question to
its section's bucket, creating the bucket (a new own property, hence at the
end) when absent. -/
def addToSection (q : FAQ) : List (String × List FAQ) → List (String × List FAQ)
  | [] => [(q.«section», [q])]
  | (k, b) :: rest =>
    if k = q.«section» then (k, b ++ [q]) :: rest
    else (k, b) :: addToSection q rest

/-- The `for (let question of questions)` loop of `organizeFAQ`. -/
def groupLoop : List (String × List FAQ) → List FAQ → List (String × List FAQ)
  | sections, [] => sections
  | sections, q :: qs => groupLoop (addToSection q sections) qs

/-- The sort relation used inside `organizeFAQ`:
`question1.order - question2.order <= 0`. -/
def faqOrder (a b : FAQ) : Prop := a.order ≤ b.order

instance : DecidableRel faqOrder := fun _ _ => Int.decLe _ _

/-- `organizeFAQ` from `update.ts`: group by section (own-property creation
order), then sort each bucket by `order` with the stable array sort.  The
key-enumeration order of the sorting loop does not affect the result, so it
is a map over the buckets. -/
def organizeFAQ (questions : List FAQ) : List (String × List FAQ) :=
  (groupLoop [] questions).map (fun kb => (kb.1, List.insertionSort faqOrder kb.2))

/-- Base-10 value of a digit string. -/
def decimalValue (l : List Char) : Nat :=
  l.foldl (fun n c => n * 10 + (c.toNat - 48)) 0

/-- Whether a character list is a canonical base-10 numeral: a lone digit,
or a nonzero leading digit followed by digits. -/
def isCanonicalNumeral : List Char → Bool
  | [] => false
  | [c] => c.isDigit
  | c :: rest => c.isDigit && decide (c ≠ Char.ofNat 48) && rest.all Char.isDigit

/-- Whether a string is a JavaScript array-index key: the canonical base-10
numeral of some `n < 2^32 - 1`. -/
def isArrayIndexKey (s : String) : Bool :=
  isCanonicalNumeral s.data && decide (decimalValue s.data < 4294967295)

/-- Numeric value of an array-index key (only applied to array-index
keys). -/
def indexVal (s : String) : Nat := decimalValue s.data

/-- Enumeration order among array-index keys: ascending numeric value. -/
def keyOrder {β : Type} (a b : String × β) : Prop := indexVal a.1 ≤ indexVal b.1

instance {β : Type} : DecidableRel (@keyOrder β) := fun _ _ => Nat.decLe _ _

/-- JavaScript `for...in` own-property enumeration order: array-index keys
first in ascending numeric order, then the other keys in insertion order. -/
def jsEnumOrder {β : Type} (l : List (String × β)) : List (String × β) :=
  List.insertionSort keyOrder (l.filter (fun e => isArrayIndexKey e.1))
    ++ l.filter (fun e => !isArrayIndexKey e.1)

/-- `renderFAQ` from `update.ts`: render the plain rich-text answer,
replace it by the block rendering when `blocks` is non-empty, and emit the
`<dt>`/`<dd>` pair. -/
def renderFAQ (faq : FAQ) (lt : LinkableTerms) : String :=
  let renderedAnswer := renderRichTexts faq.answer lt
  let renderedAnswer :=
    if faq.blocks.length > 0 then renderBlocks faq.blocks lt else renderedAnswer
  "<dt data-displayed-on=\x27dao-glossary\x27>" ++ stripCurlyQuotes faq.question ++ "</dt>\n"
    ++ "<dd data-displayed-on=\x27dao-glossary\x27>" ++ stripCurlyQuotes renderedAnswer ++ "</dd>\n"

/-- `renderFAQs` from `update.ts`: the definition-list block of one
section. -/
def renderFAQs (faqs : List FAQ) (lt : LinkableTerms) : String :=
  "<dl class=\"definition-list\">\n" ++ String.join (faqs.map (renderFAQ · lt)) ++ "</dl>\n"

/-- The `for (let section in sections)` accumulation loop of
`renderSections`. -/
def renderSectionsLoop (lt : LinkableTerms) (out : String) :
    List (String × List FAQ) → String
  | [] => out
  | (k, b) :: rest =>
    renderSectionsLoop lt
      (out ++ "<h3 class=\"faq-section-title\">" ++ stripCurlyQuotes k ++ "</h3>\n"
        ++ renderFAQs b lt) rest

/-- `renderSections` from `update.ts`: iterate the sections record in
`for...in` enumeration order, emitting a heading and a definition list per
section. -/
def renderSections (sections : List (String × List FAQ)) (lt : LinkableTerms) : String :=
  renderSectionsLoop lt "" (jsEnumOrder sections)

/-- One iteration of the LinkableTerms construction loop in `main`: the new
entry's text and anchor are rendered against the table as it stands at that
point of the loop. -/
def buildStep (proj : Project) (lt : LinkableTerms) (d : Definition) : LinkableTerms :=
  jsSet lt d.pageId
    { text := renderRichTexts d.term lt
      anchor := formatGlossaryTermKey d.term lt
      page := "../dao-glossary.md"
      valid := validDefinitionToPublish d proj
      notionURL := d.url }

/-- The LinkableTerms construction loop of `main`. -/
def buildLinkableTerms (defs : List Definition) (proj : Project) : LinkableTerms :=
  defs.foldl (buildStep proj) []

/-- The filter of `main`:
`definitions.filter(def => validDefinitionToPublish(def, project) == DefinitionValidity.Valid)`. -/
def publishedDefinitions (defs : List Definition) (proj : Project) : List Definition :=
  defs.filter (fun d => decide (validDefinitionToPublish d proj = DefinitionValidity.Valid))

/-- The pure part of `main`: build the table, organize and render the FAQ,
filter and render the glossary.  Returns (glossary fragment, FAQ
fragment). -/
def runPipeline (cmp : String → String → Int) (proj : Project) (faqs : List FAQ)
    (defs : List Definition) : String × String :=
  let linkableTerms := buildLinkableTerms defs proj
  let sections := organizeFAQ faqs
  let sectionsHTML := renderSections sections linkableTerms
  let definitionsHTML := formatDefinitions cmp (publishedDefinitions defs proj) linkableTerms
  (definitionsHTML, sectionsHTML)

/-! ## Lemmas about the JavaScript object model -/

theorem jsGet_jsSet_same (lt : LinkableTerms) (k : String) (v : LinkedDefinition) :
    jsGet (jsSet lt k v) k = some v := by
  induction lt with
  | nil => simp [jsSet, jsGet]
  | cons e rest ih =>
    obtain ⟨k0, v0⟩ := e
    by_cases h : k0 = k
    · simp [jsSet, h, jsGet]
    · simp [jsSet, h, jsGet, ih]

theorem jsGet_jsSet_other (lt : LinkableTerms) (k k0 : String) (v : LinkedDefinition)
    (h : k ≠ k0) : jsGet (jsSet lt k v) k0 = jsGet lt k0 := by
  induction lt with
  | nil => simp [jsSet, jsGet, h]
  | cons e rest ih =>
    obtain ⟨k1, v1⟩ := e
    by_cases h1 : k1 = k
    · simp [jsSet, h1, jsGet, h]
    · simp [jsSet, h1, jsGet, ih]

theorem jsGet_buildLoop_of_not_mem (proj : Project) (rest : List Definition)
    (lt : LinkableTerms) (k : String) (h : ∀ d ∈ rest, d.pageId ≠ k) :
    jsGet (List.foldl (buildStep proj) lt rest) k = jsGet lt k := by
  induction rest generalizing lt with
  | nil => rfl
  | cons d rest ih =>
    have hd : d.pageId ≠ k := h d (List.mem_cons_self d rest)
    have hrest : ∀ d ∈ rest, d.pageId ≠ k := fun d hm => h d (List.mem_cons_of_mem _ hm)
    calc jsGet (List.foldl (buildStep proj) (buildStep proj lt d) rest) k
        = jsGet (buildStep proj lt d) k := ih (buildStep proj lt d) hrest
      _ = jsGet lt k := jsGet_jsSet_other lt d.pageId k _ hd

/-! ## Claim C2 -/

/-- Example input: the first definition's term references the
second definition's pageId. -/
def exDef1 : Definition :=
  { pageId := "p1", term := [{ text := "Alpha", ref := some "p2" }],
    definition := [], url := "u1" }

/-- Second example definition: a plain term. -/
def exDef2 : Definition :=
  { pageId := "p2", term := [{ text := "Beta" }], definition := [], url := "u2" }

/-- Project context that classifies every definition as Valid. -/
def exProj : Project := ⟨fun _ => DefinitionValidity.Valid⟩

/-- C2 counterexample: in `main`, the construction loop itself reads the
table — `renderRichTexts(definition.term, linkableTerms)` is called with the
partially built table.  With `exDef1` (whose term references `exDef2`) built
first, its stored text "Alpha" is NOT what rendering that same term against
the completed table yields (a link), so a rendering call that consults the
table ran before every entry had been inserted. -/
theorem linkTable_read_during_construction :
    (jsGet (buildLinkableTerms [exDef1, exDef2] exProj) "p1").map LinkedDefinition.text
      = some "Alpha"
    ∧ renderRichTexts exDef1.term (buildLinkableTerms [exDef1, exDef2] exProj)
      = "[Alpha](../dao-glossary.md#beta)"
    ∧ (jsGet (buildLinkableTerms [exDef1, exDef2] exProj) "p1").map LinkedDefinition.text
      ≠ some (renderRichTexts exDef1.term (buildLinkableTerms [exDef1, exDef2] exProj)) := by
  refine ⟨by decide, by decide, by decide⟩

/-- C2 amended: the table is mutated only by the construction loop of
`main` and each iteration renders the new entry against the table as built
so far: with pairwise-distinct pageIds, the completed table's entry for the
i-th definition carries exactly the text and anchor rendered against the
table built from the first i definitions — not against the completed
table. -/
theorem buildLinkableTerms_append_cons (proj : Project) (l1 : List Definition)
    (d : Definition) (l2 : List Definition) (h : ∀ e ∈ l2, e.pageId ≠ d.pageId) :
    jsGet (buildLinkableTerms (l1 ++ d :: l2) proj) d.pageId =
      some { text := renderRichTexts d.term (buildLinkableTerms l1 proj)
             anchor := formatGlossaryTermKey d.term (buildLinkableTerms l1 proj)
             page := "../dao-glossary.md"
             valid := validDefinitionToPublish d proj
             notionURL := d.url } := by
  unfold buildLinkableTerms
  rw [List.foldl_append, List.foldl_cons]
  calc jsGet (List.foldl (buildStep proj)
        (buildStep proj (List.foldl (buildStep proj) [] l1) d) l2) d.pageId
      = jsGet (buildStep proj (List.foldl (buildStep proj) [] l1) d) d.pageId :=
        jsGet_buildLoop_of_not_mem _ _ _ _ h
    _ = _ := jsGet_jsSet_same _ _ _

theorem buildLinkableTerms_renders_against_partial_table
    (defs : List Definition) (proj : Project)
    (hnd : (defs.map Definition.pageId).Nodup) (i : Nat) (hi : i < defs.length) :
    jsGet (buildLinkableTerms defs proj) defs[i].pageId =
      some { text := renderRichTexts defs[i].term (buildLinkableTerms (defs.take i) proj)
             anchor := formatGlossaryTermKey defs[i].term (buildLinkableTerms (defs.take i) proj)
             page := "../dao-glossary.md"
             valid := validDefinitionToPublish defs[i] proj
             notionURL := defs[i].url } := by
  have hsplit : defs = defs.take i ++ defs[i] :: defs.drop (i + 1) := by
    conv_lhs => rw [← List.take_append_drop i defs]
    rw [List.drop_eq_getElem_cons hi]
  have hnotmem : ∀ d ∈ defs.drop (i + 1), d.pageId ≠ defs[i].pageId := by
    have hmap := congrArg (List.map Definition.pageId) hsplit
    rw [List.map_append, List.map_cons] at hmap
    rw [hmap] at hnd
    have h2 := hnd.of_append_right
    have h3 := (List.nodup_cons.mp h2).1
    intro d hm he
    exact h3 (he ▸ List.mem_map_of_mem Definition.pageId hm)
  have harg := congrArg (fun l => jsGet (buildLinkableTerms l proj) defs[i].pageId) hsplit
  simp only at harg
  rw [harg, buildLinkableTerms_append_cons proj _ _ _ hnotmem]

/-- C2 amended, witness: instantiated at the two-definition input with
distinct pageIds, at index 1. -/
theorem buildLinkableTerms_renders_against_partial_table_witness :
    ([exDef1, exDef2].map Definition.pageId).Nodup ∧ 1 < [exDef1, exDef2].length ∧
    jsGet (buildLinkableTerms [exDef1, exDef2] exProj) ([exDef1, exDef2])[1].pageId =
      some { text := renderRichTexts ([exDef1, exDef2])[1].term
                (buildLinkableTerms ([exDef1, exDef2].take 1) exProj)
             anchor := formatGlossaryTermKey ([exDef1, exDef2])[1].term
                (buildLinkableTerms ([exDef1, exDef2].take 1) exProj)
             page := "../dao-glossary.md"
             valid := validDefinitionToPublish ([exDef1, exDef2])[1] exProj
             notionURL := ([exDef1, exDef2])[1].url } :=
  ⟨by decide, by decide,
    buildLinkableTerms_renders_against_partial_table [exDef1, exDef2] exProj
      (by decide) 1 (by decide)⟩

/-! ## Claim C5 -/

/-- Input for the C5 analysis: a term whose rendered text contains `%`. -/
def c5Def : Definition :=
  { pageId := "p", term := [{ text := "a%b" }], definition := [], url := "u" }

/-- C5: the regex `[^a-z0-9\s$-()-]` is documented (code comment and spec)
as removing everything outside letters, digits, whitespace, `$`, `-` and
parentheses, but `$-(` parses as the character range `$` to `(`, so `%`,
`&` and the apostrophe are also kept: the formatted term of a definition
whose term renders to "a%b" still contains `%`, which is outside the
documented set (`anchorAllowed`) though inside the set the regex keeps
(`regexKept`). -/
theorem renderDefinition_keeps_percent :
    (renderDefinition c5Def []).term = "a%b"
    ∧ '%' ∈ (renderDefinition c5Def []).term.data
    ∧ anchorAllowed '%' = false
    ∧ regexKept '%' = true
    ∧ anchorAllowed '&' = false ∧ regexKept '&' = true := by
  refine ⟨by decide, by decide, by decide, by decide, by decide, by decide⟩

/-! ## Claim C7 -/

/-- C7: the rendering pipeline is a pure function of the fetched inputs
(project, FAQ list, definition list) and the host collation: two runs on
identical inputs produce identical glossary and FAQ fragments. -/
theorem runPipeline_deterministic (cmp₁ cmp₂ : String → String → Int)
    (proj₁ proj₂ : Project) (faqs₁ faqs₂ : List FAQ) (defs₁ defs₂ : List Definition)
    (hc : cmp₁ = cmp₂) (hp : proj₁ = proj₂) (hf : faqs₁ = faqs₂) (hd : defs₁ = defs₂) :
    runPipeline cmp₁ proj₁ faqs₁ defs₁ = runPipeline cmp₂ proj₂ faqs₂ defs₂ := by
  rw [hc, hp, hf, hd]

/-- A concrete stand-in for the host collation, used by witnesses: compare
string lengths. -/
def cmpByLength (a b : String) : Int := (a.length : Int) - (b.length : Int)

/-- C7 witness: two runs at a concrete input. -/
theorem runPipeline_deterministic_witness :
    cmpByLength = cmpByLength ∧ exProj = exProj
    ∧ runPipeline cmpByLength exProj [] [exDef1, exDef2]
      = runPipeline cmpByLength exProj [] [exDef1, exDef2] :=
  ⟨rfl, rfl,
    runPipeline_deterministic cmpByLength cmpByLength exProj exProj [] []
      [exDef1, exDef2] [exDef1, exDef2] rfl rfl rfl rfl⟩

/-! ## Claim C8 -/

/-- C8: `renderFAQ` renders the answer with the block renderer exactly when
the entry's `blocks` sequence is non-empty, and from the plain rich-text
`answer` field when it is empty. -/
theorem renderFAQ_answer_source (faq : FAQ) (lt : LinkableTerms) :
    (faq.blocks ≠ [] →
      renderFAQ faq lt =
        "<dt data-displayed-on=\x27dao-glossary\x27>" ++ stripCurlyQuotes faq.question
          ++ "</dt>\n" ++ "<dd data-displayed-on=\x27dao-glossary\x27>"
          ++ stripCurlyQuotes (renderBlocks faq.blocks lt) ++ "</dd>\n")
    ∧ (faq.blocks = [] →
      renderFAQ faq lt =
        "<dt data-displayed-on=\x27dao-glossary\x27>" ++ stripCurlyQuotes faq.question
          ++ "</dt>\n" ++ "<dd data-displayed-on=\x27dao-glossary\x27>"
          ++ stripCurlyQuotes (renderRichTexts faq.answer lt) ++ "</dd>\n") := by
  constructor
  · intro h
    have hl : 0 < faq.blocks.length := List.length_pos.mpr h
    unfold renderFAQ
    simp only [gt_iff_lt, hl, if_true, if_pos]
  · intro h
    unfold renderFAQ
    simp [h]

/-- Input for the C8 witness: an entry with a non-empty blocks sequence. -/
def c8Faq : FAQ :=
  { «section» := "s", order := 1, question := "Q?", answer := [{ text := "A1" }],
    blocks := [Block.paragraph [{ text := "B1" }]] }

/-- C8 witness: at a concrete entry with blocks present, the block renderer
is used. -/
theorem renderFAQ_answer_source_witness :
    c8Faq.blocks ≠ [] ∧
    renderFAQ c8Faq [] =
      "<dt data-displayed-on=\x27dao-glossary\x27>" ++ stripCurlyQuotes c8Faq.question
        ++ "</dt>\n" ++ "<dd data-displayed-on=\x27dao-glossary\x27>"
        ++ stripCurlyQuotes (renderBlocks c8Faq.blocks []) ++ "</dd>\n" :=
  ⟨by decide, (renderFAQ_answer_source c8Faq []).1 (by decide)⟩

/-! ## Claim C10 -/

/-- C10: with no published definitions, `formatDefinitions` still returns
the container wrapper, exactly this string. -/
theorem formatDefinitions_empty (cmp : String → String → Int) (lt : LinkableTerms) :
    formatDefinitions cmp [] lt = "<div class=\"hidden-glossary\">\n\n\n</div>\n" := rfl

/-! ## Lemmas about the FAQ grouping loop -/

theorem addToSection_keys (q : FAQ) (acc : List (String × List FAQ)) :
    (addToSection q acc).map Prod.fst =
      if q.«section» ∈ acc.map Prod.fst then acc.map Prod.fst
      else acc.map Prod.fst ++ [q.«section»] := by
  induction acc with
  | nil => simp [addToSection]
  | cons e rest ih =>
    obtain ⟨k, b⟩ := e
    by_cases h : k = q.«section»
    · simp [addToSection, h]
    · by_cases h2 : q.«section» ∈ rest.map Prod.fst
      · simp [addToSection, h, ih, h2, Ne.symm h]
      · simp [addToSection, h, ih, h2, Ne.symm h]

theorem join_addToSection (q : FAQ) (acc : List (String × List FAQ)) :
    ((addToSection q acc).map Prod.snd).flatten.Perm
      ((acc.map Prod.snd).flatten ++ [q]) := by
  induction acc with
  | nil => simp [addToSection]
  | cons e rest ih =>
    obtain ⟨k, b⟩ := e
    by_cases h : k = q.«section»
    · simp only [addToSection, h, if_pos, List.map_cons, List.flatten_cons, List.append_assoc]
      exact List.Perm.append_left b (List.perm_append_comm)
    · simp only [addToSection, if_neg h, List.map_cons, List.flatten_cons]
      have h1 := List.Perm.append_left b ih
      have h2 : b ++ ((rest.map Prod.snd).flatten ++ [q])
          = (b ++ (rest.map Prod.snd).flatten) ++ [q] := (List.append_assoc b _ _).symm
      exact h2 ▸ h1

theorem join_groupLoop (qs : List FAQ) (acc : List (String × List FAQ)) :
    ((groupLoop acc qs).map Prod.snd).flatten.Perm
      ((acc.map Prod.snd).flatten ++ qs) := by
  induction qs generalizing acc with
  | nil => simp [groupLoop]
  | cons q qs ih =>
    have h1 := (ih (addToSection q acc)).trans
      (List.Perm.append_right qs (join_addToSection q acc))
    have h2 : (((acc.map Prod.snd).flatten ++ [q])) ++ qs
        = (acc.map Prod.snd).flatten ++ (q :: qs) := by simp
    exact h2 ▸ h1

/-- Every bucket's entries carry the bucket's section name. -/
def sectionsConsistent (l : List (String × List FAQ)) : Prop :=
  ∀ kb ∈ l, ∀ q ∈ kb.2, q.«section» = kb.1

theorem sectionsConsistent_addToSection (q : FAQ) (acc : List (String × List FAQ))
    (h : sectionsConsistent acc) : sectionsConsistent (addToSection q acc) := by
  induction acc with
  | nil =>
    intro kb hkb q0 hq0
    simp only [addToSection, List.mem_singleton] at hkb
    subst hkb
    simp only [List.mem_singleton] at hq0
    subst hq0
    rfl
  | cons e rest ih =>
    obtain ⟨k, b⟩ := e
    have hrest : sectionsConsistent rest := fun kb hkb => h kb (List.mem_cons_of_mem _ hkb)
    by_cases hk : k = q.«section»
    · intro kb hkb q0 hq0
      simp only [addToSection, hk, if_pos, List.mem_cons] at hkb
      rcases hkb with hkb | hkb
      · subst hkb
        simp only [List.mem_append, List.mem_singleton] at hq0
        rcases hq0 with hq0 | hq0
        · exact (h (k, b) (List.mem_cons_self _ _) q0 (by simpa [hk] using hq0)).trans hk
        · subst hq0; rfl
      · exact hrest kb hkb q0 hq0
    · intro kb hkb q0 hq0
      simp only [addToSection, if_neg hk, List.mem_cons] at hkb
      rcases hkb with hkb | hkb
      · subst hkb
        exact h (k, b) (List.mem_cons_self _ _) q0 hq0
      · exact ih hrest kb hkb q0 hq0

theorem sectionsConsistent_groupLoop (qs : List FAQ) (acc : List (String × List FAQ))
    (h : sectionsConsistent acc) : sectionsConsistent (groupLoop acc qs) := by
  induction qs generalizing acc with
  | nil => exact h
  | cons q qs ih => exact ih _ (sectionsConsistent_addToSection q acc h)

theorem keys_nodup_addToSection (q : FAQ) (acc : List (String × List FAQ))
    (h : (acc.map Prod.fst).Nodup) : ((addToSection q acc).map Prod.fst).Nodup := by
  rw [addToSection_keys]
  by_cases hm : q.«section» ∈ acc.map Prod.fst
  · simpa [hm] using h
  · simp [hm, List.nodup_append, h]

theorem keys_nodup_groupLoop (qs : List FAQ) (acc : List (String × List FAQ))
    (h : (acc.map Prod.fst).Nodup) : ((groupLoop acc qs).map Prod.fst).Nodup := by
  induction qs generalizing acc with
  | nil => exact h
  | cons q qs ih => exact ih _ (keys_nodup_addToSection q acc h)

/-- First-seen order of the distinct section names of the input, starting
from the names already seen. -/
def firstSeenKeys : List String → List FAQ → List String
  | seen, [] => seen
  | seen, q :: qs =>
    if q.«section» ∈ seen then firstSeenKeys seen qs
    else firstSeenKeys (seen ++ [q.«section»]) qs

theorem keys_groupLoop (qs : List FAQ) (acc : List (String × List FAQ)) :
    (groupLoop acc qs).map Prod.fst = firstSeenKeys (acc.map Prod.fst) qs := by
  induction qs generalizing acc with
  | nil => rfl
  | cons q qs ih =>
    show (groupLoop (addToSection q acc) qs).map Prod.fst = _
    rw [ih (addToSection q acc), addToSection_keys]
    by_cases hm : q.«section» ∈ acc.map Prod.fst
    · simp [firstSeenKeys, hm]
    · simp [firstSeenKeys, hm]

theorem mem_firstSeenKeys (k : String) (seen : List String) (qs : List FAQ)
    (h : k ∈ firstSeenKeys seen qs) : k ∈ seen ∨ ∃ q ∈ qs, k = q.«section» := by
  induction qs generalizing seen with
  | nil => exact Or.inl h
  | cons q qs ih =>
    unfold firstSeenKeys at h
    by_cases hm : q.«section» ∈ seen
    · rw [if_pos hm] at h
      rcases ih seen h with h1 | ⟨q0, hq0, hk⟩
      · exact Or.inl h1
      · exact Or.inr ⟨q0, List.mem_cons_of_mem _ hq0, hk⟩
    · rw [if_neg hm] at h
      rcases ih _ h with h1 | ⟨q0, hq0, hk⟩
      · rcases List.mem_append.mp h1 with h2 | h2
        · exact Or.inl h2
        · exact Or.inr ⟨q, List.mem_cons_self _ _, List.mem_singleton.mp h2⟩
      · exact Or.inr ⟨q0, List.mem_cons_of_mem _ hq0, hk⟩

theorem jsEnumOrder_eq_self {β : Type} (l : List (String × β))
    (h : ∀ e ∈ l, isArrayIndexKey e.1 = false) : jsEnumOrder l = l := by
  have h1 : l.filter (fun e => isArrayIndexKey e.1) = [] := by
    rw [List.filter_eq_nil_iff]
    intro a ha
    simp [h a ha]
  have h2 : l.filter (fun e => !isArrayIndexKey e.1) = l := by
    rw [List.filter_eq_self]
    intro a ha
    simp [h a ha]
  simp [jsEnumOrder, h1, h2]

theorem join_map_sortBuckets (l : List (String × List FAQ)) :
    (((l.map (fun kb => (kb.1, List.insertionSort faqOrder kb.2))).map Prod.snd).flatten).Perm
      ((l.map Prod.snd).flatten) := by
  induction l with
  | nil => simp
  | cons e rest ih =>
    simp only [List.map_cons, List.flatten_cons]
    exact List.Perm.append (List.perm_insertionSort faqOrder e.2) ih

instance : IsTotal FAQ faqOrder := ⟨fun a b => Int.le_total a.order b.order⟩

instance : IsTrans FAQ faqOrder := ⟨fun _ _ _ h1 h2 => le_trans h1 h2⟩

/-! ## Claim C9 -/

/-- C9: `organizeFAQ` partitions its input without loss or duplication —
the buckets' entries together are a permutation of the input (so each entry
is in exactly one bucket counting multiplicity, and the total count equals
the input length), section keys are pairwise distinct, and every entry sits
in the bucket of its own section. -/
theorem organizeFAQ_partitions (faqs : List FAQ) :
    ((organizeFAQ faqs).map Prod.snd).flatten.Perm faqs
    ∧ ((organizeFAQ faqs).map Prod.fst).Nodup
    ∧ ∀ kb ∈ organizeFAQ faqs, ∀ q ∈ kb.2, q.«section» = kb.1 := by
  refine ⟨?_, ?_, ?_⟩
  · have h1 := join_map_sortBuckets (groupLoop [] faqs)
    have h2 := join_groupLoop faqs []
    simp only [List.map_nil, List.flatten_nil, List.nil_append] at h2
    exact h1.trans h2
  · have h := keys_nodup_groupLoop faqs [] (by simp)
    simpa [organizeFAQ, List.map_map, Function.comp] using h
  · intro kb hkb q hq
    simp only [organizeFAQ, List.mem_map] at hkb
    obtain ⟨kb0, hkb0, rfl⟩ := hkb
    have hq0 : q ∈ kb0.2 := (List.perm_insertionSort faqOrder kb0.2).mem_iff.mp hq
    exact sectionsConsistent_groupLoop faqs [] (by intro kb h; cases h) kb0 hkb0 q hq0

/-! ## Claim C4 -/

/-- First FAQ of the C4 counterexample: section named "2". -/
def c4FaqA : FAQ :=
  { «section» := "2", order := 0, question := "qA", answer := [], blocks := [] }

/-- Second FAQ of the C4 counterexample: section named "1". -/
def c4FaqB : FAQ :=
  { «section» := "1", order := 0, question := "qB", answer := [], blocks := [] }

set_option maxRecDepth 10000 in
/-- C4 counterexample: section names that are array-index strings are
enumerated by `for...in` in ascending numeric order, not first-seen order.
With input sections ["2", "1"], the FAQ output emits section "1" before
section "2" although "2" was seen first. -/
theorem faq_sections_not_first_seen_order :
    firstSeenKeys [] [c4FaqA, c4FaqB] = ["2", "1"]
    ∧ (jsEnumOrder (organizeFAQ [c4FaqA, c4FaqB])).map Prod.fst = ["1", "2"]
    ∧ renderSections (organizeFAQ [c4FaqA, c4FaqB]) [] =
        "<h3 class=\"faq-section-title\">1</h3>\n<dl class=\"definition-list\">\n<dt data-displayed-on=\x27dao-glossary\x27>qB</dt>\n<dd data-displayed-on=\x27dao-glossary\x27></dd>\n</dl>\n<h3 class=\"faq-section-title\">2</h3>\n<dl class=\"definition-list\">\n<dt data-displayed-on=\x27dao-glossary\x27>qA</dt>\n<dd data-displayed-on=\x27dao-glossary\x27></dd>\n</dl>\n"
    ∧ (jsEnumOrder (organizeFAQ [c4FaqA, c4FaqB])).map Prod.fst
      ≠ firstSeenKeys [] [c4FaqA, c4FaqB] := by
  refine ⟨by decide, by decide, rfl, by decide⟩

/-- C4 amended: provided no section name is an array-index string (the
canonical base-10 numeral of some n < 2^32 - 1), the sections appear in
first-seen input order; every bucket is sorted ascending by `order`, and
the sort is stable (order-equal pairs keep their input order within the
bucket). -/
theorem organizeFAQ_section_and_entry_order (faqs : List FAQ)
    (hkeys : ∀ q ∈ faqs, isArrayIndexKey q.«section» = false) :
    jsEnumOrder (organizeFAQ faqs) = organizeFAQ faqs
    ∧ (organizeFAQ faqs).map Prod.fst = firstSeenKeys [] faqs
    ∧ (∀ kb ∈ organizeFAQ faqs, List.Sorted faqOrder kb.2)
    ∧ ∀ k b0, (k, b0) ∈ groupLoop [] faqs →
        (k, List.insertionSort faqOrder b0) ∈ organizeFAQ faqs
        ∧ ∀ x y : FAQ, faqOrder x y → [x, y].Sublist b0 →
            [x, y].Sublist (List.insertionSort faqOrder b0) := by
  have hkeysEq : (organizeFAQ faqs).map Prod.fst = firstSeenKeys [] faqs := by
    have h := keys_groupLoop faqs []
    simpa [organizeFAQ, List.map_map, Function.comp] using h
  refine ⟨?_, hkeysEq, ?_, ?_⟩
  · refine jsEnumOrder_eq_self _ ?_
    intro e he
    have hmem : e.1 ∈ (organizeFAQ faqs).map Prod.fst := List.mem_map_of_mem Prod.fst he
    rw [hkeysEq] at hmem
    rcases mem_firstSeenKeys e.1 [] faqs hmem with h1 | ⟨q, hq, hk⟩
    · cases h1
    · exact hk ▸ hkeys q hq
  · intro kb hkb
    simp only [organizeFAQ, List.mem_map] at hkb
    obtain ⟨kb0, _, rfl⟩ := hkb
    exact List.sorted_insertionSort faqOrder kb0.2
  · intro k b0 hmem
    refine ⟨?_, ?_⟩
    · simp only [organizeFAQ, List.mem_map]
      exact ⟨(k, b0), hmem, rfl⟩
    · intro x y hxy hsub
      exact List.pair_sublist_insertionSort hxy hsub

/-- FAQ of the C4 witness, spec scenario 2: section "Voting", order 2. -/
def c4wFaq1 : FAQ :=
  { «section» := "Voting", order := 2, question := "v2", answer := [], blocks := [] }

/-- FAQ of the C4 witness: section "Voting", order 1. -/
def c4wFaq2 : FAQ :=
  { «section» := "Voting", order := 1, question := "v1", answer := [], blocks := [] }

/-- FAQ of the C4 witness: section "Rewards", order 5. -/
def c4wFaq3 : FAQ :=
  { «section» := "Rewards", order := 5, question := "r5", answer := [], blocks := [] }

/-- C4 amended, witness: the spec's end-to-end scenario 2 input. -/
theorem organizeFAQ_section_and_entry_order_witness :
    (∀ q ∈ [c4wFaq1, c4wFaq2, c4wFaq3], isArrayIndexKey q.«section» = false)
    ∧ (jsEnumOrder (organizeFAQ [c4wFaq1, c4wFaq2, c4wFaq3])
        = organizeFAQ [c4wFaq1, c4wFaq2, c4wFaq3]
      ∧ (organizeFAQ [c4wFaq1, c4wFaq2, c4wFaq3]).map Prod.fst
        = firstSeenKeys [] [c4wFaq1, c4wFaq2, c4wFaq3]
      ∧ (∀ kb ∈ organizeFAQ [c4wFaq1, c4wFaq2, c4wFaq3], List.Sorted faqOrder kb.2)
      ∧ ∀ k b0, (k, b0) ∈ groupLoop [] [c4wFaq1, c4wFaq2, c4wFaq3] →
          (k, List.insertionSort faqOrder b0) ∈ organizeFAQ [c4wFaq1, c4wFaq2, c4wFaq3]
          ∧ ∀ x y : FAQ, faqOrder x y → [x, y].Sublist b0 →
              [x, y].Sublist (List.insertionSort faqOrder b0)) :=
  ⟨by decide, organizeFAQ_section_and_entry_order [c4wFaq1, c4wFaq2, c4wFaq3] (by decide)⟩

/-! ## Claim C1 -/

/-- C1: a definition contributes to the glossary exactly when classified
Valid — in `main`, `publishedDefinitions` keeps a fetched definition
exactly once when Valid and drops it otherwise, and `formatDefinitions`
emits the rendered triples of exactly that list (as a permutation, since it
only reorders), preserving multiplicities of rendered entries. -/
theorem glossary_contains_exactly_valid (cmp : String → String → Int)
    (defs : List Definition) (proj : Project) (lt : LinkableTerms)
    (hnd : defs.Nodup) (d : Definition) (hd : d ∈ defs) :
    (List.count d (publishedDefinitions defs proj)
      = if validDefinitionToPublish d proj = DefinitionValidity.Valid then 1 else 0)
    ∧ (glossaryEntryList cmp (publishedDefinitions defs proj) lt).Perm
        ((publishedDefinitions defs proj).map (renderDefinition · lt))
    ∧ List.count (renderDefinition d lt)
        (glossaryEntryList cmp (publishedDefinitions defs proj) lt)
      = List.count (renderDefinition d lt)
        ((publishedDefinitions defs proj).map (renderDefinition · lt)) := by
  refine ⟨?_, List.perm_insertionSort _ _, (List.perm_insertionSort _ _).count_eq _⟩
  by_cases hv : validDefinitionToPublish d proj = DefinitionValidity.Valid
  · rw [if_pos hv]
    unfold publishedDefinitions
    rw [List.count_filter (by simp [hv])]
    exact List.count_eq_one_of_mem hnd hd
  · rw [if_neg hv]
    refine List.count_eq_zero_of_not_mem ?_
    intro hmem
    have h1 := List.of_mem_filter hmem
    simp only [decide_eq_true_eq] at h1
    exact hv h1

/-- C1 witness: a two-definition fetched set, a project classifying
everything Valid, instantiated at the first definition. -/
theorem glossary_contains_exactly_valid_witness :
    [exDef1, exDef2].Nodup ∧ exDef1 ∈ [exDef1, exDef2]
    ∧ ((List.count exDef1 (publishedDefinitions [exDef1, exDef2] exProj)
        = if validDefinitionToPublish exDef1 exProj = DefinitionValidity.Valid then 1 else 0)
      ∧ (glossaryEntryList cmpByLength (publishedDefinitions [exDef1, exDef2] exProj) []).Perm
          ((publishedDefinitions [exDef1, exDef2] exProj).map (renderDefinition · []))
      ∧ List.count (renderDefinition exDef1 [])
          (glossaryEntryList cmpByLength (publishedDefinitions [exDef1, exDef2] exProj) [])
        = List.count (renderDefinition exDef1 [])
          ((publishedDefinitions [exDef1, exDef2] exProj).map (renderDefinition · []))) :=
  ⟨by decide, by decide,
    glossary_contains_exactly_valid cmpByLength [exDef1, exDef2] exProj []
      (by decide) exDef1 (by decide)⟩

/-! ## Claim C3 -/

/-- C3: the glossary fragment emits the rendered triples in the order of
the stable sort by the collation on the rendered term: the emitted list is
sorted by `termOrder cmp`, is a permutation of the rendered input, and any
input pair whose terms the collation considers equal keeps its input order
(stability).  The collation is assumed to be a total preorder, which the
locale collation underlying `localeCompare` is. -/
theorem glossary_sorted_stable (cmp : String → String → Int)
    (defs : List Definition) (lt : LinkableTerms)
    (htot : ∀ a b : String, cmp a b ≤ 0 ∨ cmp b a ≤ 0)
    (htrans : ∀ a b c : String, cmp a b ≤ 0 → cmp b c ≤ 0 → cmp a c ≤ 0) :
    formatDefinitions cmp defs lt
      = "<div class=\"hidden-glossary\">\n\n"
        ++ String.join ((glossaryEntryList cmp defs lt).map glossaryEntryString)
        ++ "\n</div>\n"
    ∧ List.Sorted (termOrder cmp) (glossaryEntryList cmp defs lt)
    ∧ (glossaryEntryList cmp defs lt).Perm (defs.map (renderDefinition · lt))
    ∧ ∀ a b : RenderedDefinition, cmp a.term b.term = 0 →
        [a, b].Sublist (defs.map (renderDefinition · lt)) →
        [a, b].Sublist (glossaryEntryList cmp defs lt) := by
  haveI : IsTotal RenderedDefinition (termOrder cmp) := ⟨fun a b => htot a.term b.term⟩
  haveI : IsTrans RenderedDefinition (termOrder cmp) :=
    ⟨fun a b c h1 h2 => htrans a.term b.term c.term h1 h2⟩
  refine ⟨rfl, List.sorted_insertionSort _ _, List.perm_insertionSort _ _, ?_⟩
  intro a b hab hsub
  exact List.pair_sublist_insertionSort (le_of_eq hab) hsub

/-- C3 witness: the length-comparison collation is a total preorder, and
the theorem holds at a concrete two-definition input. -/
theorem glossary_sorted_stable_witness :
    (∀ a b : String, cmpByLength a b ≤ 0 ∨ cmpByLength b a ≤ 0)
    ∧ (∀ a b c : String, cmpByLength a b ≤ 0 → cmpByLength b c ≤ 0 → cmpByLength a c ≤ 0)
    ∧ (formatDefinitions cmpByLength [exDef1, exDef2] []
        = "<div class=\"hidden-glossary\">\n\n"
          ++ String.join ((glossaryEntryList cmpByLength [exDef1, exDef2] []).map
              glossaryEntryString)
          ++ "\n</div>\n"
      ∧ List.Sorted (termOrder cmpByLength) (glossaryEntryList cmpByLength [exDef1, exDef2] [])
      ∧ (glossaryEntryList cmpByLength [exDef1, exDef2] []).Perm
          ([exDef1, exDef2].map (renderDefinition · []))
      ∧ ∀ a b : RenderedDefinition, cmpByLength a.term b.term = 0 →
          [a, b].Sublist ([exDef1, exDef2].map (renderDefinition · [])) →
          [a, b].Sublist (glossaryEntryList cmpByLength [exDef1, exDef2] [])) :=
  ⟨fun a b => by unfold cmpByLength; omega,
   fun a b c => by unfold cmpByLength; omega,
   glossary_sorted_stable cmpByLength [exDef1, exDef2] []
     (fun a b => by unfold cmpByLength; omega)
     (fun a b c => by unfold cmpByLength; omega)⟩

/-! ## Claim C6 -/

theorem stringJoin_cons (s : String) (l : List String) :
    String.join (s :: l) = s ++ String.join l := by
  rw [String.join_eq, String.join_eq]
  apply String.ext
  simp

theorem renderSectionsLoop_eq (lt : LinkableTerms) (out : String)
    (l : List (String × List FAQ)) :
    renderSectionsLoop lt out l
      = out ++ String.join (l.map (fun kb =>
          "<h3 class=\"faq-section-title\">" ++ stripCurlyQuotes kb.1 ++ "</h3>\n"
            ++ renderFAQs kb.2 lt)) := by
  induction l generalizing out with
  | nil =>
    show out = out ++ String.join []
    rw [String.join_eq]
    apply String.ext
    simp
  | cons kb rest ih =>
    obtain ⟨k, b⟩ := kb
    show renderSectionsLoop lt _ rest = _
    rw [ih, List.map_cons, stringJoin_cons]
    simp only [String.append_assoc]

/-- C6 amended: each section of the FAQ fragment is introduced by the HTML
heading `<h3 class="faq-section-title">{title}</h3>` (with curly quotes
stripped from the title) — not a markdown `###` heading — followed by the
`<dl class="definition-list">` block that `renderFAQs` builds with one
`<dt>`/`<dd>` pair per entry. -/
theorem renderSections_structure (sections : List (String × List FAQ))
    (lt : LinkableTerms) :
    renderSections sections lt
      = String.join ((jsEnumOrder sections).map (fun kb =>
          "<h3 class=\"faq-section-title\">" ++ stripCurlyQuotes kb.1 ++ "</h3>\n"
            ++ renderFAQs kb.2 lt)) := by
  rw [renderSections, renderSectionsLoop_eq]
  exact String.empty_append _

/-- Input for the C6 counterexample: one FAQ in one section. -/
def c6Faq : FAQ :=
  { «section» := "Voting", order := 1, question := "Q?", answer := [{ text := "A" }],
    blocks := [] }

set_option maxRecDepth 10000 in
/-- C6 counterexample: the section heading emitted by `renderSections` is
an HTML `<h3>` element, not a markdown heading of the form
`### {section title}`. -/
theorem faq_heading_not_markdown :
    renderSections (organizeFAQ [c6Faq]) [] =
      "<h3 class=\"faq-section-title\">Voting</h3>\n<dl class=\"definition-list\">\n<dt data-displayed-on=\x27dao-glossary\x27>Q?</dt>\n<dd data-displayed-on=\x27dao-glossary\x27>A</dd>\n</dl>\n"
    ∧ (renderSections (organizeFAQ [c6Faq]) []).take 4 ≠ "### " := by
  refine ⟨rfl, by decide⟩
